import Mathlib

/-!
Verification of the SolaSola task-orchestration and caching core.

This file gives a shallow embedding, in Lean 4, of the parts of the
SolaSola repository that the specification claims talk about:

* `solasola/cache_resolver.py`: SHA-256 file hashing, processing-cache
  manifest validation, and per-asset cache resolution;
* `solasola/processing_logic.py`: the fingerprint computed in
  `process_task_wrapper`, duration validation, and the job-level
  control flow (per-song failure policy, cancellation, terminal status);
* `solasola/task_manager.py`: the cooperative cancellation check;
* `solasola/srt_parser.py`: even splitting of plain-text lyrics over a
  duration;
* `solasola/sub_process/global_model_state_watcher.py` and
  `solasola/utils.py`: the three-pass global model cleanup sweep;
* `solasola/xet_manager.py`: the xet scratch-cache manager.

Machine integers are modelled as `Nat` with explicit reduction modulo
2 to the 32 where the source relies on 32-bit wraparound (SHA-256);
real-valued durations are modelled as rationals; Python exceptions are
modelled with `Except`.
-/

namespace SolaSola

/-! ## SHA-256 (hashlib.sha256, as used by CacheResolver.get_file_hash
and the settings fingerprint in process_task_wrapper)

Bytes are natural numbers below 256; 32-bit words are natural numbers
kept below 2 to the 32 by explicit masking. -/

/-- The 32-bit modulus. -/
def w32mod : Nat := 4294967296

/-- Addition modulo 2 to the 32. -/
def wadd (a b : Nat) : Nat := (a + b) % w32mod

/-- Bitwise right rotation of a 32-bit word. -/
def rotr (a n : Nat) : Nat := ((a >>> n) ||| (a <<< (32 - n))) % w32mod

/-- Bitwise exclusive or of three words. -/
def xor3 (a b c : Nat) : Nat := Nat.xor (Nat.xor a b) c

/-- Bitwise complement of a 32-bit word. -/
def wnot (a : Nat) : Nat := Nat.xor a 4294967295

/-- The SHA-256 round constants, written in decimal. -/
def shaK : List Nat :=
  [1116352408, 1899447441, 3049323471, 3921009573, 961987163,
   1508970993, 2453635748, 2870763221, 3624381080, 310598401,
   607225278, 1426881987, 1925078388, 2162078206, 2614888103,
   3248222580, 3835390401, 4022224774, 264347078, 604807628,
   770255983, 1249150122, 1555081692, 1996064986, 2554220882,
   2821834349, 2952996808, 3210313671, 3336571891, 3584528711,
   113926993, 338241895, 666307205, 773529912, 1294757372,
   1396182291, 1695183700, 1986661051, 2177026350, 2456956037,
   2730485921, 2820302411, 3259730800, 3345764771, 3516065817,
   3600352804, 4094571909, 275423344, 430227734, 506948616,
   659060556, 883997877, 958139571, 1322822218, 1537002063,
   1747873779, 1955562222, 2024104815, 2227730452, 2361852424,
   2428436474, 2756734187, 3204031479, 3329325298]

/-- The SHA-256 initial hash state, written in decimal. -/
def shaH0 : List Nat :=
  [1779033703, 3144134277, 1013904242, 2773480762,
   1359893119, 2600822924, 528734635, 1541459225]

/-- The small sigma 0 function of the message schedule. -/
def ssig0 (x : Nat) : Nat := xor3 (rotr x 7) (rotr x 18) (x >>> 3)

/-- The small sigma 1 function of the message schedule. -/
def ssig1 (x : Nat) : Nat := xor3 (rotr x 17) (rotr x 19) (x >>> 10)

/-- Group a byte list into big-endian 32-bit words. -/
def toWords : List Nat → List Nat
  | a :: b :: c :: d :: rest => (((a * 256 + b) * 256 + c) * 256 + d) :: toWords rest
  | _ => []

/-- Append the next word of the SHA-256 message schedule. -/
def schedStep (ws : List Nat) : List Nat :=
  let n := ws.length
  let g (k : Nat) : Nat := ws.getD (n - k) 0
  ws ++ [wadd (wadd (ssig1 (g 2)) (g 7)) (wadd (ssig0 (g 15)) (g 16))]

/-- Iterate the message-schedule extension a given number of times. -/
def sched : Nat → List Nat → List Nat
  | 0, ws => ws
  | fuel + 1, ws => sched fuel (schedStep ws)

/-- One SHA-256 compression round; the state is the eight working
variables, the argument pairs a round constant with a schedule word. -/
def shaRound (st : List Nat) (kw : Nat × Nat) : List Nat :=
  match st with
  | [a, b, c, d, e, f, g, h] =>
    let S1 := xor3 (rotr e 6) (rotr e 11) (rotr e 25)
    let ch := Nat.xor (Nat.land e f) (Nat.land (wnot e) g)
    let t1 := wadd h (wadd S1 (wadd ch (wadd kw.1 kw.2)))
    let S0 := xor3 (rotr a 2) (rotr a 13) (rotr a 22)
    let mj := Nat.xor (Nat.xor (Nat.land a b) (Nat.land a c)) (Nat.land b c)
    let t2 := wadd S0 mj
    [wadd t1 t2, a, b, c, wadd d t1, e, f, g]
  | st => st

/-- Process one 64-byte block against a hash state. -/
def processBlock (H : List Nat) (block : List Nat) : List Nat :=
  let ws := sched 48 (toWords block)
  let fin := (shaK.zip ws).foldl shaRound H
  List.zipWith wadd H fin

/-- Split a list into chunks of the given size, with explicit fuel so
that the definition is structurally recursive. -/
def chunksF (size : Nat) : Nat → List Nat → List (List Nat)
  | 0, _ => []
  | _, [] => []
  | fuel + 1, xs => xs.take size :: chunksF size fuel (xs.drop size)

/-- SHA-256 padding for a message of the given length. -/
def shaPadding (len : Nat) : List Nat :=
  let zeros := List.replicate ((119 - len % 64) % 64) 0
  let lenBytes := [56, 48, 40, 32, 24, 16, 8, 0].map (fun s => ((8 * len) >>> s) % 256)
  128 :: zeros ++ lenBytes

/-- Big-endian byte decomposition of a 32-bit word. -/
def wordBytes (w : Nat) : List Nat :=
  [(w >>> 24) % 256, (w >>> 16) % 256, (w >>> 8) % 256, w % 256]

/-- SHA-256 digest (32 bytes) of a byte list. -/
def sha256 (msg : List Nat) : List Nat :=
  let padded := msg ++ shaPadding msg.length
  let Hf := (chunksF 64 padded.length padded).foldl processBlock shaH0
  (Hf.map wordBytes).flatten

/-- One lowercase hexadecimal digit: digits map to codes 48 and up,
letters to codes 97 and up. -/
def hexDigit (n : Nat) : Char :=
  if n < 10 then Char.ofNat (48 + n) else Char.ofNat (87 + n)

/-- Two-digit lowercase hexadecimal rendering of a byte. -/
def byteHex (b : Nat) : List Char := [hexDigit (b / 16), hexDigit (b % 16)]

/-- Lowercase hexadecimal digest string, as hashlib's hexdigest. -/
def sha256hex (msg : List Nat) : String :=
  String.mk ((sha256 msg).map byteHex).flatten

/-- The UTF-8 bytes of an ASCII string (all strings hashed by the code
are ASCII, where code points and bytes coincide). -/
def strBytes (s : String) : List Nat := s.data.map Char.toNat

/-! ## Fingerprint (processing_logic.py, process_task_wrapper, and
cache_resolver.py, CacheResolver.get_file_hash)

The wrapper hashes the primary audio file, truncates the hex digest to
12 characters, and appends an 8-character hex digest of the settings
key `mode-model` (the model part is replaced by the literal `na`
whenever the processing mode is not `abc`). -/

/-- Embeds `CacheResolver.get_file_hash`: the file is read in 4096-byte
chunks, each fed to the running hash, and the hex digest is returned.
A hashlib context is modelled by the byte list accumulated so far, so
feeding chunks one by one amounts to concatenating them before the
final digest. -/
def get_file_hash (content : List Nat) : String :=
  sha256hex ((chunksF 4096 content.length content).foldl (fun acc c => acc ++ c) [])

/-- Embeds the `mode_key` string built in `process_task_wrapper`:
`processing_mode` joined with the model variant, where the variant is
the literal `na` unless the mode is `abc`. -/
def mode_key (processing_mode demucs_model : String) : String :=
  processing_mode ++ "-" ++ (if processing_mode = "abc" then demucs_model else "na")

/-- Embeds `settings_fingerprint`: the first 8 hex characters of the
SHA-256 of the mode key. -/
def settings_fingerprint (processing_mode demucs_model : String) : String :=
  (sha256hex (strBytes (mode_key processing_mode demucs_model))).take 8

/-- Embeds `file_fingerprint`: the first 12 characters of the audio
hash, or of the literal `no_audio` when the job has no audio file. -/
def file_fingerprint (audioHash : Option String) : String :=
  (audioHash.getD "no_audio").take 12

/-- Embeds the `fingerprint` string of `process_task_wrapper`: file
part, underscore, settings part. -/
def fingerprint (audioHash : Option String) (processing_mode demucs_model : String) : String :=
  file_fingerprint audioHash ++ "_" ++ settings_fingerprint processing_mode demucs_model

/-- The fingerprint computed for a job whose primary audio input has
the given bytes: `get_file_hash` on the file, then the settings key. -/
def job_fingerprint (fileBytes : List Nat) (processing_mode demucs_model : String) : String :=
  fingerprint (some (get_file_hash fileBytes)) processing_mode demucs_model

/-! ## JSON values and the Python operations used on them

`_validate_processing_cache` manipulates the decoded manifest with
`in`, subscripting, truthiness, iteration and `endswith`; each of
these can raise in Python, and only `JSONDecodeError`, `IOError` and
`KeyError` are caught by the function. The embedding therefore tracks
exceptions with `Except`. -/

/-- The Python exceptions relevant to the cache-validation code. -/
inductive PyErr
  | typeError
  | attributeError
  | keyError
  | ioError
  | jsonDecodeError
deriving DecidableEq, Repr

/-- Decoded JSON values. Numbers are modelled as integers, which
covers everything the manifests contain (file sizes). -/
inductive Json
  | null
  | bool (b : Bool)
  | num (n : Int)
  | str (s : String)
  | arr (xs : List Json)
  | obj (kvs : List (String × Json))

/-- Whether a character list occurs contiguously inside another (used
for the Python `in` operator on strings). -/
def charListMatch : List Char → List Char → Bool
  | [], _ => true
  | _ :: _, [] => false
  | a :: n, b :: h => a == b && charListMatch n h

/-- Substring occurrence test on character lists. -/
def hasSub (needle : List Char) : List Char → Bool
  | [] => needle.isEmpty
  | b :: t => charListMatch needle (b :: t) || hasSub needle t

/-- Python `s.endswith(suffix)`, computed over character lists so that
it evaluates inside the kernel. -/
def pyEndsWithStr (s suffix : String) : Bool :=
  charListMatch suffix.data.reverse s.data.reverse

/-- Python `s.startswith(pre)`, computed over character lists so that
it evaluates inside the kernel. -/
def pyStartsWith (s pre : String) : Bool :=
  charListMatch pre.data s.data

/-- Python equality between a JSON value and a string: only a string
with the same characters compares equal; any other value compares
unequal without raising. -/
def jsonIsStr (j : Json) (k : String) : Bool :=
  match j with
  | .str s => s = k
  | _ => false

/-- Python equality between a JSON value and a machine integer, as
used for the manifest size comparison (`st_size != file_info["size"]`).
Booleans equal their numeric value in Python; other kinds compare
unequal without raising. -/
def jsonEqNat (j : Json) (n : Nat) : Bool :=
  match j with
  | .num m => m = (n : Int)
  | .bool b => (if b then (1 : Int) else 0) = (n : Int)
  | _ => false

/-- The Python subscript `j[k]` for a string key: key lookup on a
dict, `KeyError` when absent, `TypeError` on every other value. -/
def pyGetItem (j : Json) (k : String) : Except PyErr Json :=
  match j with
  | .obj kvs =>
    match kvs.lookup k with
    | some v => .ok v
    | none => .error .keyError
  | _ => .error .typeError

/-- The Python membership test `k in j` for a string `k`: key test on
a dict, element test on a list, substring test on a string, and
`TypeError` on non-container values. -/
def pyContains (j : Json) (k : String) : Except PyErr Bool :=
  match j with
  | .obj kvs => .ok (kvs.any (fun kv => kv.1 == k))
  | .arr xs => .ok (xs.any (fun x => jsonIsStr x k))
  | .str s => .ok (hasSub k.data s.data)
  | _ => .error .typeError

/-- Python truthiness of a JSON value. -/
def pyTruthy (j : Json) : Bool :=
  match j with
  | .null => false
  | .bool b => b
  | .num n => n != 0
  | .str s => s != ""
  | .arr xs => !xs.isEmpty
  | .obj kvs => !kvs.isEmpty

/-- Python iteration over a JSON value: a list yields its elements, a
string its one-character substrings, a dict its keys; every other
value raises `TypeError`. -/
def pyIterate (j : Json) : Except PyErr (List Json) :=
  match j with
  | .arr xs => .ok xs
  | .str s => .ok (s.data.map (fun c => .str (String.mk [c])))
  | .obj kvs => .ok (kvs.map (fun kv => Json.str kv.1))
  | _ => .error .typeError

/-- The Python call `j.endswith(suffix)`: defined on strings only,
`AttributeError` otherwise. -/
def pyEndsWith (j : Json) (suffix : String) : Except PyErr Bool :=
  match j with
  | .str s => .ok (pyEndsWithStr s suffix)
  | _ => .error .attributeError

/-- The Python path join `directory / j`: accepts a string, raises
`TypeError` on every other JSON value. -/
def pyAsPathName (j : Json) : Except PyErr String :=
  match j with
  | .str s => .ok s
  | _ => .error .typeError

/-- Short-circuiting `any` over effectful predicates, as the Python
generator expression inside `any(...)`. -/
def exceptAny (p : Json → Except PyErr Bool) : List Json → Except PyErr Bool
  | [] => .ok false
  | x :: rest => do
    let b ← p x
    if b then pure true else exceptAny p rest

/-! ## Manifest validation (_validate_processing_cache in cache_resolver.py) -/

/-- What reading the manifest file of a directory can yield: the file
is absent (`is_file` is false), opening or reading it raises IOError,
`json.load` raises JSONDecodeError, or a decoded JSON value comes
back. -/
inductive ManifestFile
  | absent
  | readIOError
  | decodeError
  | content (j : Json)

/-- A candidate cache directory as seen by the validator: its name
(which is the asset type), its manifest file, and the regular files it
contains on disk with their byte sizes. -/
structure CacheDir where
  name : String
  manifest : ManifestFile
  disk : List (String × Nat)

/-- The on-disk size of a named file in the directory, or `none` when
`is_file` would be false. -/
def diskSize (d : CacheDir) (fileName : String) : Option Nat :=
  d.disk.lookup fileName

/-- The `expected_extensions` dict of `_validate_processing_cache`.
Note that, unlike `write_manifest_for_step`, this dict has no entry
for `chords`. -/
def expectedExtVal (assetType : String) : Option String :=
  ([("stems", ".wav"), ("midi", ".mid"), ("abc_files", ".abc")]).lookup assetType

/-- The per-entry existence and size check of the validation loop:
`directory / file_info["name"]` must be a file of exactly the listed
size. Mirrors the short-circuit of the source: the `size` key is only
read when the file exists. -/
def checkFilesLoop (d : CacheDir) : List Json → Except PyErr Bool
  | [] => .ok true
  | f :: rest => do
    let nameJ ← pyGetItem f "name"
    let nm ← pyAsPathName nameJ
    match diskSize d nm with
    | none => pure false
    | some sz => do
      let sizeJ ← pyGetItem f "size"
      if jsonEqNat sizeJ sz then checkFilesLoop d rest else pure false

/-- The body of the `try` block of `_validate_processing_cache`: read
and decode the manifest, require a truthy `files` entry, require a
file with the expected extension when the asset type has one, then
check every listed file on disk. -/
def validateBody (d : CacheDir) : Except PyErr Bool := do
  let j ← (match d.manifest with
    | .absent => Except.error PyErr.ioError
    | .readIOError => Except.error PyErr.ioError
    | .decodeError => Except.error PyErr.jsonDecodeError
    | .content j => Except.ok j)
  let hasFilesKey ← pyContains j "files"
  if !hasFilesKey then pure false
  else do
    let filesJ ← pyGetItem j "files"
    if !pyTruthy filesJ then pure false
    else
      match expectedExtVal d.name with
      | some ext => do
        let entries ← pyIterate filesJ
        let anyOk ← exceptAny (fun f => do
          let nm ← pyGetItem f "name"
          pyEndsWith nm ext) entries
        if !anyOk then pure false
        else do
          let entries2 ← pyIterate filesJ
          checkFilesLoop d entries2
      | none => do
        let entries2 ← pyIterate filesJ
        checkFilesLoop d entries2

/-- Embeds `_validate_processing_cache`: false when the manifest file
is absent; otherwise the `try` body runs and only `JSONDecodeError`,
`IOError` and `KeyError` are converted to false — any other exception
propagates to the caller. -/
def validate_processing_cache (d : CacheDir) : Except PyErr Bool :=
  match d.manifest with
  | .absent => .ok false
  | _ =>
    match validateBody d with
    | .ok b => .ok b
    | .error .jsonDecodeError => .ok false
    | .error .ioError => .ok false
    | .error .keyError => .ok false
    | .error e => .error e

/-- A well-formed manifest entry for a file with the given name and
size. -/
def wfEntry (fe : String × Nat) : Json :=
  .obj [("name", .str fe.1), ("size", .num (fe.2 : Int))]

/-- The JSON written by `write_manifest_for_step` for a well-formed
list of (name, size) entries. Used to state claims about manifests
that are otherwise well-formed. -/
def mkManifestJson (files : List (String × Nat)) : Json :=
  .obj [("files", .arr (files.map wfEntry))]

/-! ## Cache resolution (CacheResolver.resolve in cache_resolver.py) -/

/-- The action part of the dict returned by `resolve`. -/
inductive ResolveAction
  | USE_EXISTING (sourceFolder : String)
  | CREATE_NEW
deriving DecidableEq, Repr

/-- A candidate folder as `resolve` sees it for one asset type: the
folder name, the `{candidate}/{asset_type}` subdirectory when it
exists (`is_dir`), and whether `_safe_copy_tree` from it would succeed
(copy failures are environmental). -/
structure Candidate where
  folderName : String
  assetDir : Option CacheDir
  copyOk : Bool

/-- The candidate loop of `resolve`: the first candidate whose asset
subdirectory exists, validates, and copies successfully wins; a failed
copy is logged and the loop continues; when no candidate qualifies the
result is CREATE_NEW (after which the destination directory is created
empty). An exception escaping `_validate_processing_cache` propagates
out of `resolve`, since only the copy is inside a `try`. -/
def resolveLoop : List Candidate → Except PyErr ResolveAction
  | [] => .ok .CREATE_NEW
  | c :: rest =>
    match c.assetDir with
    | none => resolveLoop rest
    | some dir =>
      match validate_processing_cache dir with
      | .error e => .error e
      | .ok false => resolveLoop rest
      | .ok true => if c.copyOk then .ok (.USE_EXISTING c.folderName) else resolveLoop rest

/-- Embeds `CacheResolver.resolve`: runs the candidate loop and pairs
the action with the destination path `{result_dir}/{asset_type}`,
which in the CREATE_NEW case is created as an empty directory. -/
def resolve (resultDir assetType : String) (candidates : List Candidate) :
    Except PyErr (ResolveAction × String) :=
  match resolveLoop candidates with
  | .error e => .error e
  | .ok a => .ok (a, resultDir ++ "/" ++ assetType)

/-! ## Task registry and cooperative cancellation (task_manager.py, app.py) -/

/-- The fields of a task record that the cancellation check reads. -/
structure TaskRec where
  cancel_requested : Bool

/-- The global `TASKS` dict, keyed by task id. -/
def TasksMap := List (String × TaskRec)

/-- Embeds `check_for_cancellation`: true exactly when the call raises
the distinguished `InterruptedError`. The source reads
`TASKS.get(task_id, {}).get('cancel_requested')`, so an unknown task
id never raises. -/
def check_for_cancellation_raises (tasks : TasksMap) (taskId : String) : Bool :=
  ((List.lookup taskId tasks).map (fun t => t.cancel_requested)).getD false

/-- Task lifecycle states (task_manager.py, update_detailed_status and
the terminal statuses set by process_task_wrapper). -/
inductive TaskStatus
  | starting
  | running
  | completed
  | failed
  | cancelled
deriving DecidableEq, Repr

/-! ## Duration validation (_validate_and_get_duration in
processing_logic.py)

Durations reported by librosa and mido are modelled as rationals. -/

/-- Python `max` over a nonempty list (0 for the empty list, which the
source never reaches). -/
def pyMax (l : List ℚ) : ℚ :=
  match l with
  | [] => 0
  | x :: xs => xs.foldl max x

/-- Python `min` over a nonempty list (0 for the empty list, which the
source never reaches). -/
def pyMin (l : List ℚ) : ℚ :=
  match l with
  | [] => 0
  | x :: xs => xs.foldl min x

/-- Embeds `_validate_and_get_duration`. Audio files take priority:
with two or more of them, a spread of more than 1.5 seconds raises
(`ValueError`, modelled as `Except.error`), otherwise the first
duration is returned. Without audio, the maximum MIDI duration is
returned. Without either, 0.0 is returned. -/
def validate_and_get_duration (audioDurations midiDurations : List ℚ) : Except Unit ℚ :=
  if !audioDurations.isEmpty then
    if audioDurations.length > 1 && decide (pyMax audioDurations - pyMin audioDurations > 3/2)
    then .error ()
    else .ok (audioDurations.headD 0)
  else if !midiDurations.isEmpty then
    .ok (pyMax midiDurations)
  else
    .ok 0

/-- Embeds the default-duration adjustment at the top of
`_process_song`: a zero duration is replaced by the 210-second default
only in lyrics-only mode with a lyrics file present. -/
def effective_duration (audioDuration : ℚ) (mode : String) (hasLyrics : Bool) : ℚ :=
  if audioDuration = 0 && mode = "lyrics_only" && hasLyrics then 210 else audioDuration

/-! ## Job-level control flow (process_task_wrapper in
processing_logic.py)

The wrapper parses the inputs, polls for cancellation, validates the
duration, then tries each song; a per-song exception is caught and the
loop continues, but `InterruptedError` is re-raised. At the end the
task fails when no song produced a result, and completes otherwise.
The outermost handlers map `InterruptedError` to `cancelled` and every
other exception to `failed`. Each song's processing is abstracted by
its outcome. -/

/-- The outcome of processing one song inside the per-song `try`. -/
inductive SongOutcome
  | success
  | failure
  | interrupted
deriving DecidableEq, Repr

/-- The environment a run of `process_task_wrapper` unfolds in: did
the cancellation poll after filename parsing fire, the durations seen
by `_validate_and_get_duration`, and the outcome of each song in queue
order. -/
structure WrapperEnv where
  cancelAfterParse : Bool
  audioDurations : List ℚ
  midiDurations : List ℚ
  songs : List SongOutcome

/-- The song loop followed by the final-results check: an interrupt
escaping a song body is re-raised past the per-song handler (line 541)
to the outer handler (status `cancelled`); otherwise, after all songs
have been attempted, an empty results dict raises (status `failed`)
and a nonempty one completes the task. The accumulator counts songs
that produced a result. For the cancellation signal the interrupted
outcome is unreachable in the source — every in-song check site is
swallowed by a broad handler, see `SongRun` below — so the claims
proved on this abstract loop are the interrupt-free ones, and
`process_task_wrapper_run` below refines it. -/
def runSongs : List SongOutcome → Nat → TaskStatus
  | [], n => if n = 0 then .failed else .completed
  | .interrupted :: _, _ => .cancelled
  | .success :: rest, n => runSongs rest (n + 1)
  | .failure :: rest, n => runSongs rest n

/-- Embeds the terminal status computed by `process_task_wrapper`. -/
def process_task_wrapper (env : WrapperEnv) : TaskStatus :=
  if env.cancelAfterParse then .cancelled
  else
    match validate_and_get_duration env.audioDurations env.midiDurations with
    | .error _ => .failed
    | .ok _ => runSongs env.songs 0

/-- How many songs the wrapper attempts: none when the run aborts
before the loop, and every song up to an interruption otherwise. -/
def attemptedSongs (env : WrapperEnv) : Nat :=
  if env.cancelAfterParse then 0
  else
    match validate_and_get_duration env.audioDurations env.midiDurations with
    | .error _ => 0
    | .ok _ => (env.songs.takeWhile (fun o => o != SongOutcome.interrupted)).length

/-- Where the cancellation signal can fire inside `_process_song`, and
what else fails there. The custom `InterruptedError` subclasses
`Exception` (task_manager.py:10), and every `check_for_cancellation`
call site reachable during song processing lies inside one of three
broad `except Exception` handlers of processing_logic.py:
the lyrics block (try at 203, check at 223, handler at 231 returns
`None`); the analysis block (try at 237, checks at 240 and — inside
`_run_genre_classification`, handler at 131 returning an empty list —
at 108; the handler at 243 only logs and falls through); and the audio
block (try at 250, checks inside `process_audio` and
`convert_stems_to_midi`, handler at 276 returns `None`). Each flag
records whether the signal fires at a check of that block, or whether
some other exception occurs there. -/
structure SongRun where
  interruptAtLyrics : Bool
  lyricsError : Bool
  interruptAtAnalysis : Bool
  analysisError : Bool
  interruptAtAudio : Bool
  audioError : Bool

/-- Whether `_process_song` returns a result entry for a song run: the
lyrics and audio handlers return `None` on any exception — including
the swallowed cancellation signal — while the analysis handler only
logs, leaving the song on its success path. The analysis and audio
blocks run only in full-analysis mode. In particular no song run lets
`InterruptedError` escape `_process_song`: the per-song
`except InterruptedError: raise` at line 541 never sees the signal. -/
def songResult (modeAbc : Bool) (r : SongRun) : Bool :=
  if r.interruptAtLyrics || r.lyricsError then false
  else if modeAbc && (r.interruptAtAudio || r.audioError) then false
  else true

/-- The abstract outcome a song run presents to the wrapper loop:
success when a result is returned, failure otherwise; never the
interrupted outcome, because every in-song signal is swallowed. -/
def songOutcomeOf (modeAbc : Bool) (r : SongRun) : SongOutcome :=
  if songResult modeAbc r then SongOutcome.success else SongOutcome.failure

/-- The environment of a faithful run of `process_task_wrapper`: the
poll right after filename parsing (line 442, the only check site not
inside an inner handler), the durations, the processing mode, and one
`SongRun` per song in queue order. -/
structure WrapperRunEnv where
  cancelAfterParse : Bool
  audioDurations : List ℚ
  midiDurations : List ℚ
  modeAbc : Bool
  songRuns : List SongRun

/-- The terminal status of a faithful wrapper run: `cancelled` only
when the pre-loop poll fires; `failed` when duration validation raises
or no song returns a result; `completed` as soon as one song returns a
result — even when the cancellation signal fired mid-song and was
swallowed. -/
def process_task_wrapper_run (env : WrapperRunEnv) : TaskStatus :=
  if env.cancelAfterParse then .cancelled
  else
    match validate_and_get_duration env.audioDurations env.midiDurations with
    | .error _ => .failed
    | .ok _ =>
      if env.songRuns.any (fun r => songResult env.modeAbc r) then .completed
      else .failed

/-! ## Even lyrics split (generate_srt_from_txt in srt_parser.py) -/

/-- One timed lyrics segment. -/
structure Segment where
  start : ℚ
  stop : ℚ
  text : String
deriving DecidableEq, Repr

/-- Python `str.strip`: drop leading and trailing whitespace. Written
over the character list so that it evaluates inside the kernel. -/
def pyStrip (s : String) : String :=
  String.mk (((s.data.dropWhile Char.isWhitespace).reverse.dropWhile
    Char.isWhitespace).reverse)

/-- The line filter of `generate_srt_from_txt`: strip each line and
keep the non-empty ones. -/
def nonEmptyLines (content : List String) : List String :=
  (content.map (fun l => pyStrip l)).filter (fun l => l != "")

/-- The segment built for line index `i` of `n` lines over the total
duration: starts at `i` times the per-line share, ends one share later
except that the last segment ends exactly at the total duration. -/
def mkSegment (n : Nat) (total : ℚ) (i : Nat) (txt : String) : Segment :=
  { start := i * (total / n)
    stop := if i < n - 1 then (i + 1) * (total / n) else total
    text := txt }

/-- The enumerated loop body of `generate_srt_from_txt`. -/
def buildSegments (n : Nat) (total : ℚ) : Nat → List String → List Segment
  | _, [] => []
  | i, t :: rest => mkSegment n total i t :: buildSegments n total (i + 1) rest

/-- Embeds `generate_srt_from_txt` (the parsed-segments component):
empty result when there is no non-empty line or the duration is not
positive, otherwise one segment per non-empty line. -/
def generate_srt_from_txt (content : List String) (totalDuration : ℚ) : List Segment :=
  let lines := nonEmptyLines content
  if lines.length = 0 || decide (totalDuration ≤ 0) then []
  else buildSegments lines.length totalDuration 0 lines

/-! ## Global model cleanup (cleanup in
sub_process/global_model_state_watcher.py, is_path_excluded in
utils.py)

Paths are modelled as component lists relative to the AI models root
(the root itself has no excluded component). The manifest directory is
the `solasola_manifests` child of the root. -/

/-- A path under the models root, as its list of components. -/
abbrev MPath := List String

/-- Embeds `is_path_excluded`: under the manifest directory, the
top-level `xet` folder, any path with a `.locks` component, hidden
names, and the download statistics file. -/
def is_path_excluded (p : MPath) : Bool :=
  (match List.head? p with | some c => c == "solasola_manifests" | none => false)
  || p == ["xet"]
  || List.contains p ".locks"
  || (match List.getLast? p with | some n => pyStartsWith n "." | none => false)
  || (match List.getLast? p with | some n => n == "download_stats.json" | none => false)

/-- Whether `os.walk` skips a file at this path: the pruning in
`cleanup` drops every directory for which `is_path_excluded` holds, so
a file is reachable-and-deletable only when no prefix of its path
(ancestor directory or the file itself) is excluded. -/
def walkExcluded (p : MPath) : Bool :=
  (List.range (List.length p)).any (fun k => is_path_excluded (List.take (k + 1) p))

/-- One entry of a model manifest: an absolute file path (modelled
relative to the models root) and the recorded hash, which
`file_info.get('hash')` reads as an optional value. -/
structure MEntry where
  path : MPath
  hash : Option String
deriving DecidableEq

/-- A manifest file in the manifest directory: its file name and its
parsed `files` list; `none` stands for a manifest that could not be
parsed or whose `files` key is missing or not a list, which `cleanup`
skips (with a warning) when building the known set and never checks or
deletes afterwards. -/
structure MManifest where
  fileName : String
  entries : Option (List MEntry)

/-- The state `cleanup` sweeps: the files below the models root with
their live content hashes (`calculate_file_hash`), and the manifests
in the manifest directory. -/
structure ModelsState where
  files : List (MPath × String)
  manifests : List MManifest

/-- The known-files set of step 1: every manifest file itself plus
every path referenced by a parseable manifest. -/
def knownFiles (manifests : List MManifest) : List MPath :=
  manifests.map (fun m => ["solasola_manifests", m.fileName])
    ++ manifests.flatMap (fun m => (m.entries.getD []).map (fun e => e.path))

/-- Step 2 of `cleanup` (the orphan pass): walk the models root and
delete every reachable, non-excluded file that no manifest knows. -/
def orphanPass (s : ModelsState) : ModelsState :=
  { s with files := s.files.filter (fun f =>
      walkExcluded f.1 || List.contains (knownFiles s.manifests) f.1) }

/-- The live hash of a path in the current file set. -/
def liveHash (files : List (MPath × String)) (p : MPath) : Option String :=
  List.lookup p files

/-- One entry of step 3 (the corruption pass): when the referenced
path exists and its live hash differs from the recorded one, the file
is deleted. -/
def corruptStep (files : List (MPath × String)) (e : MEntry) : List (MPath × String) :=
  match liveHash files e.path with
  | none => files
  | some h => if e.hash == some h then files else files.filter (fun f => f.1 != e.path)

/-- The entries step 3 and step 4 iterate, in manifest order then
entry order (`manifests_to_check`). -/
def checkedEntries (manifests : List MManifest) : List MEntry :=
  manifests.flatMap (fun m => m.entries.getD [])

/-- Step 3 of `cleanup` (the corruption pass): verify every known
file's hash against its manifest, deleting mismatches as it goes. -/
def corruptionPass (s : ModelsState) : ModelsState :=
  { s with files := (checkedEntries s.manifests).foldl corruptStep s.files }

/-- Step 4 of `cleanup` (the manifest pass): delete every parseable
manifest that references a path that no longer exists. -/
def manifestPass (s : ModelsState) : ModelsState :=
  { s with manifests := s.manifests.filter (fun m =>
      match m.entries with
      | none => true
      | some es => es.all (fun e => (liveHash s.files e.path).isSome)) }

/-- Embeds `cleanup`: the orphan pass, then the corruption pass, then
the manifest pass, in that order. -/
def cleanup (s : ModelsState) : ModelsState :=
  manifestPass (corruptionPass (orphanPass s))

/-! ## Xet scratch-cache manager (xet_manager.py)

The manager owns an active-download counter, one scheduled-deletion
timestamp, and the shared scratch directory, whose contents are
abstracted as a list of names. Wall-clock instants are rationals. -/

/-- The mutable state of `XetCacheManager`. -/
structure XetState where
  activeDownloads : Nat
  scheduledDeletionTime : Option ℚ
  cacheContents : List String

/-- Embeds `start_download`: increment the counter and cancel any
pending deletion (the timestamp is cleared whether or not one was
set). -/
def startDownload (s : XetState) : XetState :=
  { s with activeDownloads := s.activeDownloads + 1, scheduledDeletionTime := none }

/-- Embeds `finish_download` at wall-clock `now` for a download that
took `dur` seconds: decrement the counter (not below zero) and, when
it reaches zero, schedule a deletion after max(5, floor(1.5 * ceil
(dur / 60))) minutes, keeping the later of the two times if one was
already scheduled. -/
def finishDownload (now dur : ℚ) (s : XetState) : XetState :=
  let s1 := if s.activeDownloads > 0
    then { s with activeDownloads := s.activeDownloads - 1 } else s
  if s1.activeDownloads = 0 then
    let durationMinutes : ℤ := ⌈dur / 60⌉
    let calculatedDelayMinutes : ℤ := ⌊(durationMinutes : ℚ) * (3 / 2)⌋
    let finalDelayMinutes : ℤ := max 5 calculatedDelayMinutes
    let newTime : ℚ := now + (finalDelayMinutes : ℚ) * 60
    match s1.scheduledDeletionTime with
    | none => { s1 with scheduledDeletionTime := some newTime }
    | some t =>
      if newTime > t then { s1 with scheduledDeletionTime := some newTime } else s1
  else s1

/-- Embeds `_delete_xet_cache`: the removal of the directory is
disabled in the source (the `shutil.rmtree` call is commented out and
the body is `pass`), so the method changes nothing. -/
def delete_xet_cache (s : XetState) : XetState := s

/-- Embeds one wake-up of the `run` loop at wall-clock `now`: when a
deletion is scheduled, due, and no download is active, the (disabled)
deletion runs and the timestamp is reset. -/
def xetRunStep (now : ℚ) (s : XetState) : XetState :=
  match s.scheduledDeletionTime with
  | some t =>
    if decide (now ≥ t) && s.activeDownloads = 0
    then { delete_xet_cache s with scheduledDeletionTime := none }
    else s
  | none => s

/-- The operations that can reach the manager. -/
inductive XetOp
  | start
  | finish (now dur : ℚ)
  | step (now : ℚ)

/-- Apply one operation. -/
def applyXetOp (s : XetState) : XetOp → XetState
  | .start => startDownload s
  | .finish now dur => finishDownload now dur s
  | .step now => xetRunStep now s

/-- Apply a sequence of operations in order. -/
def applyXetOps (ops : List XetOp) (s : XetState) : XetState :=
  ops.foldl applyXetOp s

/-! ## Helper lemmas -/

/-- No operation of the xet manager changes the scratch directory
contents. -/
lemma applyXetOp_cache (s : XetState) (op : XetOp) :
    (applyXetOp s op).cacheContents = s.cacheContents := by
  cases op with
  | start => rfl
  | finish now dur =>
    simp only [applyXetOp, finishDownload]
    repeat' split
    all_goals rfl
  | step now =>
    simp only [applyXetOp, xetRunStep]
    repeat' split
    all_goals rfl

/-- An `Except` value with a true `isOk` is an `ok`. -/
lemma exists_ok_of_isOk {ε α : Type} {x : Except ε α} (h : x.isOk = true) :
    ∃ a, x = Except.ok a := by
  cases x with
  | error e => simp [Except.isOk, Except.toBool] at h
  | ok a => exact ⟨a, rfl⟩

/-- The abstract loop on the outcomes of faithful song runs: it
completes as soon as one run yields a result and otherwise leaves the
accumulator to decide, never reaching `cancelled`. -/
lemma runSongs_map_songOutcome (modeAbc : Bool) (rs : List SongRun) :
    ∀ n : Nat, runSongs (rs.map (songOutcomeOf modeAbc)) n =
      (if rs.any (fun r => songResult modeAbc r) then TaskStatus.completed
       else if n = 0 then TaskStatus.failed else TaskStatus.completed) := by
  induction rs with
  | nil =>
    intro n
    cases hn : decide (n = 0) with
    | true => simp [runSongs, of_decide_eq_true hn]
    | false => simp [runSongs, of_decide_eq_false hn]
  | cons r rest ih =>
    intro n
    cases hres : songResult modeAbc r with
    | true =>
      have hmap : (r :: rest).map (songOutcomeOf modeAbc)
          = SongOutcome.success :: rest.map (songOutcomeOf modeAbc) := by
        simp [songOutcomeOf, hres]
      rw [hmap, show runSongs (SongOutcome.success :: rest.map (songOutcomeOf modeAbc)) n
          = runSongs (rest.map (songOutcomeOf modeAbc)) (n + 1) from rfl, ih (n + 1)]
      simp [hres]
    | false =>
      have hmap : (r :: rest).map (songOutcomeOf modeAbc)
          = SongOutcome.failure :: rest.map (songOutcomeOf modeAbc) := by
        simp [songOutcomeOf, hres]
      rw [hmap, show runSongs (SongOutcome.failure :: rest.map (songOutcomeOf modeAbc)) n
          = runSongs (rest.map (songOutcomeOf modeAbc)) n from rfl, ih n]
      simp [hres]

/-- Characterization of the song loop when no song is interrupted:
the loop attempts every song, fails exactly when the accumulator stays
empty and no song succeeds, and completes otherwise. -/
lemma runSongs_no_interrupt {songs : List SongOutcome}
    (h : ∀ o ∈ songs, o ≠ SongOutcome.interrupted) (n : Nat) :
    (runSongs songs n = TaskStatus.failed ↔
      (n = 0 ∧ ∀ o ∈ songs, o ≠ SongOutcome.success))
    ∧ (runSongs songs n = TaskStatus.completed ↔
      (n ≠ 0 ∨ ∃ o ∈ songs, o = SongOutcome.success)) := by
  induction songs generalizing n with
  | nil =>
    rcases Nat.eq_zero_or_pos n with hn | hn
    · subst hn; simp [runSongs]
    · simp [runSongs, Nat.pos_iff_ne_zero.mp hn]
  | cons o rest ih =>
    have hrest : ∀ o ∈ rest, o ≠ SongOutcome.interrupted :=
      fun o ho => h o (List.mem_cons_of_mem _ ho)
    cases o with
    | interrupted => exact absurd rfl (h _ (List.mem_cons_self _ _))
    | success =>
      have hruns : runSongs (SongOutcome.success :: rest) n = runSongs rest (n + 1) := rfl
      have H := ih hrest (n + 1)
      constructor
      · rw [hruns, H.1]
        constructor
        · rintro ⟨hn, _⟩; exact absurd hn (Nat.succ_ne_zero n)
        · rintro ⟨_, hall⟩
          exact absurd rfl (hall SongOutcome.success (List.mem_cons_self _ _))
      · rw [hruns, H.2]
        constructor
        · intro _; exact Or.inr ⟨SongOutcome.success, List.mem_cons_self _ _, rfl⟩
        · intro _; exact Or.inl (Nat.succ_ne_zero n)
    | failure =>
      have hruns : runSongs (SongOutcome.failure :: rest) n = runSongs rest n := rfl
      have H := ih hrest n
      constructor
      · rw [hruns, H.1]
        constructor
        · rintro ⟨hn, hall⟩
          refine ⟨hn, fun o ho => ?_⟩
          rcases List.mem_cons.mp ho with h3 | h3
          · subst h3; intro hh; cases hh
          · exact hall o h3
        · rintro ⟨hn, hall⟩
          exact ⟨hn, fun o ho => hall o (List.mem_cons_of_mem _ ho)⟩
      · rw [hruns, H.2]
        constructor
        · rintro (h1 | ⟨o, ho, h2⟩)
          · exact Or.inl h1
          · exact Or.inr ⟨o, List.mem_cons_of_mem _ ho, h2⟩
        · rintro (h1 | ⟨o, ho, h2⟩)
          · exact Or.inl h1
          · rcases List.mem_cons.mp ho with h3 | h3
            · subst h3; cases h2
            · exact Or.inr ⟨o, h3, h2⟩

/-- A takeWhile that accepts every element keeps the whole list. -/
lemma takeWhile_all {α : Type} (p : α → Bool) (l : List α)
    (h : ∀ x ∈ l, p x = true) : l.takeWhile p = l := by
  induction l with
  | nil => rfl
  | cons x rest ih =>
    rw [List.takeWhile_cons, h x (List.mem_cons_self _ _)]
    simp [ih (fun y hy => h y (List.mem_cons_of_mem _ hy))]

/-- Every element of a list is bounded by a max-fold over it. -/
lemma foldl_max_le (xs : List ℚ) (x : ℚ) : x ≤ xs.foldl max x := by
  induction xs generalizing x with
  | nil => exact le_refl x
  | cons a as ih => exact le_trans (le_max_left x a) (ih (max x a))

/-- A max-fold yields its seed or one of the list elements. -/
lemma foldl_max_mem (xs : List ℚ) (x : ℚ) :
    xs.foldl max x = x ∨ xs.foldl max x ∈ xs := by
  induction xs generalizing x with
  | nil => exact Or.inl rfl
  | cons a as ih =>
    rcases ih (max x a) with h | h
    · rcases max_choice x a with h2 | h2
      · exact Or.inl (by rw [List.foldl_cons, h, h2])
      · exact Or.inr (by rw [List.foldl_cons, h, h2]; exact List.mem_cons_self _ _)
    · exact Or.inr (List.mem_cons_of_mem _ h)

/-- A max-fold is an upper bound of the list. -/
lemma foldl_max_ub (xs : List ℚ) (x : ℚ) : ∀ y ∈ xs, y ≤ xs.foldl max x := by
  induction xs generalizing x with
  | nil => intro y hy; cases hy
  | cons a as ih =>
    intro y hy
    rcases List.mem_cons.mp hy with h | h
    · subst h; exact le_trans (le_max_right x y) (foldl_max_le as (max x y))
    · exact ih (max x a) y h

/-! ## C10 -/

/-- C10. The shared xet scratch cache is never deleted by the
XetCacheManager: `_delete_xet_cache` is a no-op, and no sequence of
start-download, finish-download and run-loop steps changes the cache
directory contents. -/
theorem c10_xet_cache_untouched :
    (∀ s : XetState, delete_xet_cache s = s)
    ∧ (∀ (ops : List XetOp) (s : XetState),
        (applyXetOps ops s).cacheContents = s.cacheContents) := by
  refine ⟨fun s => rfl, ?_⟩
  intro ops
  induction ops with
  | nil => intro s; rfl
  | cons op rest ih =>
    intro s
    have h1 : applyXetOps (op :: rest) s = applyXetOps rest (applyXetOp s op) := rfl
    rw [h1, ih (applyXetOp s op), applyXetOp_cache]

/-! ## C3 -/

/-- C3. What cancellation actually does. The true half of the claim:
`check_for_cancellation` raises the distinguished signal exactly when
the task's `cancel_requested` flag is set. The refuted half, evaluated
on the faithful run model: the terminal status is `cancelled` exactly
when the pre-loop poll (processing_logic.py:442) fires, so an in-song
signal never yields `cancelled`; at the failing input — the signal
firing at the analysis check with every other step succeeding — the
task ends `completed`, and with the signal firing at the lyrics check
of a single-song job it ends `failed`. Finally the faithful model
refines the abstract loop through outcomes that are never
interrupted. -/
theorem c3_cancellation_behavior :
    (∀ (tasks : TasksMap) (taskId : String) (t : TaskRec),
      List.lookup taskId tasks = some t →
      (check_for_cancellation_raises tasks taskId = true ↔ t.cancel_requested = true))
    ∧ (∀ env : WrapperRunEnv,
        process_task_wrapper_run env = TaskStatus.cancelled ↔ env.cancelAfterParse = true)
    ∧ process_task_wrapper_run
        ⟨false, [200], [], true, [⟨false, false, true, false, false, false⟩]⟩
        = TaskStatus.completed
    ∧ process_task_wrapper_run
        ⟨false, [200], [], true, [⟨true, false, false, false, false, false⟩]⟩
        = TaskStatus.failed
    ∧ (∀ env : WrapperRunEnv, process_task_wrapper_run env
        = process_task_wrapper ⟨env.cancelAfterParse, env.audioDurations,
            env.midiDurations, env.songRuns.map (songOutcomeOf env.modeAbc)⟩) := by
  refine ⟨?_, ?_, rfl, rfl, ?_⟩
  · intro tasks taskId t h
    unfold check_for_cancellation_raises
    rw [h]
    simp
  · intro env
    unfold process_task_wrapper_run
    cases hcap : env.cancelAfterParse with
    | true => simp
    | false =>
      simp only [Bool.false_eq_true, if_false]
      constructor
      · intro hrun
        rcases hv : validate_and_get_duration env.audioDurations env.midiDurations with e | q
        · rw [hv] at hrun; cases hrun
        · rw [hv] at hrun
          dsimp only at hrun
          rcases hany : env.songRuns.any (fun r => songResult env.modeAbc r) with _ | _ <;>
            rw [hany] at hrun <;> cases hrun
      · intro hh; cases hh
  · intro env
    unfold process_task_wrapper_run process_task_wrapper
    cases hcap : env.cancelAfterParse with
    | true => rfl
    | false =>
      simp only [Bool.false_eq_true, if_false]
      rcases hv : validate_and_get_duration env.audioDurations env.midiDurations with e | q
      · rfl
      · dsimp only
        rw [runSongs_map_songOutcome]
        cases hany : env.songRuns.any (fun r => songResult env.modeAbc r) with
        | true => simp
        | false => simp

/-- Witness for C3 at a concrete task map and a concrete run that the
pre-loop poll cancels. -/
theorem c3_behavior_witness :
    check_for_cancellation_raises [("t1", ⟨true⟩)] "t1" = true
    ∧ process_task_wrapper_run ⟨true, [], [], true, []⟩ = TaskStatus.cancelled := by
  refine ⟨(c3_cancellation_behavior.1 [("t1", ⟨true⟩)] "t1" ⟨true⟩ rfl).mpr rfl, ?_⟩
  exact (c3_cancellation_behavior.2.1 ⟨true, [], [], true, []⟩).mpr rfl

/-! ## C5 -/

/-- C5. Job-level failure policy: when the run is not cancelled early
and duration validation succeeds and no song is interrupted, every
song is attempted; the task fails exactly when no song succeeds, and
completes exactly when at least one song succeeds. -/
theorem c5_failure_policy (env : WrapperEnv)
    (hcancel : env.cancelAfterParse = false)
    (hdur : (validate_and_get_duration env.audioDurations env.midiDurations).isOk = true)
    (hnoint : ∀ o ∈ env.songs, o ≠ SongOutcome.interrupted) :
    attemptedSongs env = env.songs.length
    ∧ (process_task_wrapper env = TaskStatus.failed ↔
        ∀ o ∈ env.songs, o ≠ SongOutcome.success)
    ∧ (process_task_wrapper env = TaskStatus.completed ↔
        ∃ o ∈ env.songs, o = SongOutcome.success) := by
  obtain ⟨q, hq⟩ := exists_ok_of_isOk hdur
  have hwrap : process_task_wrapper env = runSongs env.songs 0 := by
    unfold process_task_wrapper
    rw [hcancel, hq]
    simp
  have hatt : attemptedSongs env = env.songs.length := by
    unfold attemptedSongs
    rw [hcancel, hq]
    simp only [Bool.false_eq_true, if_false]
    rw [takeWhile_all _ _ (fun o ho => by
      simpa using hnoint o ho)]
  have H := runSongs_no_interrupt hnoint 0
  refine ⟨hatt, ?_, ?_⟩
  · rw [hwrap, H.1]
    constructor
    · rintro ⟨_, hall⟩; exact hall
    · intro hall; exact ⟨rfl, hall⟩
  · rw [hwrap, H.2]
    constructor
    · rintro (h0 | hex)
      · exact absurd rfl h0
      · exact hex
    · intro hex; exact Or.inr hex

/-- Witness for C5: a run with one failing and one succeeding song
completes, attempting both. -/
theorem c5_witness :
    attemptedSongs ⟨false, [], [], [SongOutcome.failure, SongOutcome.success]⟩ = 2
    ∧ process_task_wrapper ⟨false, [], [], [SongOutcome.failure, SongOutcome.success]⟩ =
        TaskStatus.completed := by
  have H := c5_failure_policy ⟨false, [], [], [SongOutcome.failure, SongOutcome.success]⟩
    rfl rfl (by intro o ho; fin_cases ho <;> simp)
  exact ⟨H.1, H.2.2.mpr ⟨SongOutcome.success, by simp, rfl⟩⟩

/-! ## C7 -/

/-- C7. Duration validation: two or more audio durations spreading by
more than 1.5 seconds make validation raise and the whole job fail
before any song is attempted; without audio, the duration is the
maximum of the MIDI durations; with neither, the result is 0 and the
210-second default is applied only in lyrics-only mode. -/
theorem c7_duration_validation :
    (∀ (ds ms : List ℚ), 2 ≤ ds.length → pyMax ds - pyMin ds > 3 / 2 →
      validate_and_get_duration ds ms = Except.error ()
      ∧ ∀ env : WrapperEnv, env.cancelAfterParse = false → env.audioDurations = ds →
          env.midiDurations = ms →
          process_task_wrapper env = TaskStatus.failed ∧ attemptedSongs env = 0)
    ∧ (∀ ms : List ℚ, ms ≠ [] →
        validate_and_get_duration [] ms = Except.ok (pyMax ms)
        ∧ pyMax ms ∈ ms ∧ ∀ x ∈ ms, x ≤ pyMax ms)
    ∧ validate_and_get_duration [] [] = Except.ok 0
    ∧ (effective_duration 0 "lyrics_only" true = 210
        ∧ ∀ (mode : String) (hasLyrics : Bool), mode ≠ "lyrics_only" →
            effective_duration 0 mode hasLyrics = 0) := by
  refine ⟨?_, ?_, rfl, rfl, ?_⟩
  · intro ds ms hlen hspread
    have hval : validate_and_get_duration ds ms = Except.error () := by
      unfold validate_and_get_duration
      have hne : ds.isEmpty = false := by
        cases ds with
        | nil => simp at hlen
        | cons a l => rfl
      rw [hne]
      simp only [Bool.not_false, if_true]
      have hgt : ds.length > 1 := hlen
      simp [hgt, hspread]
    refine ⟨hval, fun env hcap ha hm => ?_⟩
    constructor
    · unfold process_task_wrapper
      rw [hcap, ha, hm, hval]
      simp
    · unfold attemptedSongs
      rw [hcap, ha, hm, hval]
      simp
  · intro ms hne
    have hisEmpty : ms.isEmpty = false := by
      cases ms with
      | nil => exact absurd rfl hne
      | cons a l => rfl
    refine ⟨by unfold validate_and_get_duration; simp [hisEmpty], ?_, ?_⟩
    · cases ms with
      | nil => exact absurd rfl hne
      | cons a l =>
        rcases foldl_max_mem l a with h | h
        · simp only [pyMax, h]; exact List.mem_cons_self a l
        · simp only [pyMax]; exact List.mem_cons_of_mem a h
    · cases ms with
      | nil => exact absurd rfl hne
      | cons a l =>
        intro x hx
        rcases List.mem_cons.mp hx with h | h
        · subst h; simpa [pyMax] using foldl_max_le l x
        · simpa [pyMax] using foldl_max_ub l a x h
  · intro mode hasLyrics hmode
    unfold effective_duration
    simp [hmode]

/-- Witness for C7: durations 10 and 13 raise the mismatch error and
the task fails, having attempted nothing; the maximum of MIDI
durations 4 and 9 is returned when no audio is present. -/
theorem c7_witness :
    validate_and_get_duration [10, 13] [] = Except.error ()
    ∧ process_task_wrapper ⟨false, [10, 13], [], [SongOutcome.success]⟩ = TaskStatus.failed
    ∧ attemptedSongs ⟨false, [10, 13], [], [SongOutcome.success]⟩ = 0
    ∧ validate_and_get_duration [] [4, 9] = Except.ok (pyMax [4, 9]) := by
  have H := c7_duration_validation.1 [10, 13] [] (by simp) (by norm_num [pyMax, pyMin])
  have H2 := (c7_duration_validation.2.1 [4, 9] (by simp)).1
  have H3 := H.2 ⟨false, [10, 13], [], [SongOutcome.success]⟩ rfl rfl rfl
  exact ⟨H.1, H3.1, H3.2, H2⟩

/-! ## C8 -/

/-- A fallback segment for positional access. -/
def dummySegment : Segment := ⟨0, 0, ""⟩

/-- The segment builder emits one segment per line. -/
lemma buildSegments_length (n : Nat) (d : ℚ) (i : Nat) (ls : List String) :
    (buildSegments n d i ls).length = ls.length := by
  induction ls generalizing i with
  | nil => rfl
  | cons t rest ih => simp [buildSegments, ih]

/-- Positional access into the segment builder output. -/
lemma buildSegments_getD (n : Nat) (d : ℚ) (ls : List String) :
    ∀ (i k : Nat), k < ls.length →
      (buildSegments n d i ls).getD k dummySegment = mkSegment n d (i + k) (ls.getD k "") := by
  induction ls with
  | nil => intro i k hk; cases hk
  | cons t rest ih =>
    intro i k hk
    cases k with
    | zero => rfl
    | succ k =>
      have hk2 : k < rest.length := by simpa using hk
      have := ih (i + 1) k hk2
      simp only [buildSegments, List.getD_cons_succ, this]
      congr 1
      omega

/-- Every emitted segment comes from one line at one index. -/
lemma buildSegments_mem (n : Nat) (d : ℚ) (ls : List String) :
    ∀ (i : Nat) (s : Segment), s ∈ buildSegments n d i ls →
      ∃ k, k < ls.length ∧ s = mkSegment n d (i + k) (ls.getD k "") := by
  induction ls with
  | nil => intro i s hs; cases hs
  | cons t rest ih =>
    intro i s hs
    rcases List.mem_cons.mp hs with h | h
    · exact ⟨0, by simp, by simpa using h⟩
    · obtain ⟨k, hk, hs2⟩ := ih (i + 1) s h
      exact ⟨k + 1, by simpa using hk, by rw [hs2]; congr 1; omega⟩

/-- C8. Even lyrics split: with a positive number of non-empty lines
and a positive duration, the generated timing track has exactly one
segment per line, each of length duration divided by line count,
contiguous, starting at 0 and ending exactly at the duration. -/
theorem c8_even_lyrics_split (content : List String) (d : ℚ)
    (hn : 0 < (nonEmptyLines content).length) (hd : 0 < d) :
    (generate_srt_from_txt content d).length = (nonEmptyLines content).length
    ∧ (∀ s ∈ generate_srt_from_txt content d,
        s.stop - s.start = d / (nonEmptyLines content).length)
    ∧ (∀ i : Nat, i + 1 < (generate_srt_from_txt content d).length →
        ((generate_srt_from_txt content d).getD i dummySegment).stop =
          ((generate_srt_from_txt content d).getD (i + 1) dummySegment).start)
    ∧ ((generate_srt_from_txt content d).getD 0 dummySegment).start = 0
    ∧ ((generate_srt_from_txt content d).getD ((nonEmptyLines content).length - 1)
        dummySegment).stop = d := by
  have hn0 : (nonEmptyLines content).length ≠ 0 := Nat.pos_iff_ne_zero.mp hn
  have hgen : generate_srt_from_txt content d
      = buildSegments (nonEmptyLines content).length d 0 (nonEmptyLines content) := by
    simp [generate_srt_from_txt, hn0, not_le.mpr hd]
  set ls := nonEmptyLines content with hls
  set n := ls.length with hnn
  have hnQ : (n : ℚ) ≠ 0 := Nat.cast_ne_zero.mpr hn0
  have hlen : (generate_srt_from_txt content d).length = n := by
    rw [hgen, buildSegments_length]
  refine ⟨hlen, ?_, ?_, ?_, ?_⟩
  · intro s hs
    rw [hgen] at hs
    obtain ⟨k, hk, hseq⟩ := buildSegments_mem n d ls 0 s hs
    rw [hseq]
    unfold mkSegment
    dsimp only
    simp only [Nat.zero_add]
    by_cases hksmall : k < n - 1
    · rw [if_pos hksmall]
      ring
    · rw [if_neg hksmall]
      have hkeq : k = n - 1 := by omega
      subst hkeq
      have hcast : ((n - 1 : Nat) : ℚ) = (n : ℚ) - 1 := by
        push_cast [Nat.cast_sub (Nat.one_le_iff_ne_zero.mpr hn0)]
        ring
      rw [hcast]
      field_simp
      ring
  · intro i hi
    rw [hlen] at hi
    have hi1 : i < n := by omega
    have hi2 : i + 1 < n := hi
    rw [hgen, buildSegments_getD n d ls 0 i (by omega),
      buildSegments_getD n d ls 0 (i + 1) (by omega)]
    unfold mkSegment
    dsimp only
    rw [if_pos (by omega : 0 + i < n - 1)]
    push_cast
    ring_nf
  · rw [hgen, buildSegments_getD n d ls 0 0 hn]
    unfold mkSegment
    dsimp only
    push_cast
    ring
  · rw [hgen, buildSegments_getD n d ls 0 (n - 1) (by omega)]
    unfold mkSegment
    dsimp only
    rw [if_neg (by omega : ¬ 0 + (n - 1) < n - 1)]

/-- Witness for C8: two lines over 210 seconds give two segments of
105 seconds each. -/
theorem c8_witness :
    (generate_srt_from_txt ["line one", "line two"] 210).length = 2
    ∧ ∀ s ∈ generate_srt_from_txt ["line one", "line two"] 210,
        s.stop - s.start = 105 := by
  have hn : (nonEmptyLines ["line one", "line two"]).length = 2 := by rfl
  have H := c8_even_lyrics_split ["line one", "line two"] 210
    (by rw [hn]; omega) (by norm_num)
  refine ⟨by rw [H.1, hn], fun s hs => ?_⟩
  have := H.2.1 s hs
  rw [hn] at this
  rw [this]
  norm_num

/-! ## Manifest-validation computation lemmas (for C1, C6, C9) -/

/-- Binding a successful `Except` computation applies the
continuation. -/
lemma exceptBindOk {ε α β : Type} (a : α) (f : α → Except ε β) :
    (Except.ok a : Except ε α) >>= f = f a := rfl

/-- Binding a failed `Except` computation keeps the error. -/
lemma exceptBindErr {ε α β : Type} (e : ε) (f : α → Except ε β) :
    (Except.error e : Except ε α) >>= f = Except.error e := rfl

/-- `pure` in the `Except` monad is `ok`. -/
lemma exceptPure {ε α : Type} (a : α) : (pure a : Except ε α) = Except.ok a := rfl

/-- The extension scan of the validator, on well-formed entries,
computes the boolean "some listed name has the expected suffix". -/
lemma exceptAny_wf (ext : String) (files : List (String × Nat)) :
    exceptAny (fun f => do
        let nm ← pyGetItem f "name"
        pyEndsWith nm ext) (files.map wfEntry)
      = Except.ok (files.any (fun fe => pyEndsWithStr fe.1 ext)) := by
  induction files with
  | nil => rfl
  | cons fe rest ih =>
    show (do
        let b ← (do
          let nm ← pyGetItem (wfEntry fe) "name"
          pyEndsWith nm ext)
        if b then pure true
        else exceptAny (fun f => do
          let nm ← pyGetItem f "name"
          pyEndsWith nm ext) (rest.map wfEntry)) = _
    have h1 : (do
        let nm ← pyGetItem (wfEntry fe) "name"
        pyEndsWith nm ext) = Except.ok (pyEndsWithStr fe.1 ext) := rfl
    rw [h1, exceptBindOk]
    cases hb : pyEndsWithStr fe.1 ext with
    | true => simp [hb, exceptPure]
    | false => simp [hb, ih]

/-- The existence-and-size loop of the validator, on well-formed
entries, computes the boolean "every listed file is on disk with the
listed size". -/
lemma checkFilesLoop_wf (d : CacheDir) (files : List (String × Nat)) :
    checkFilesLoop d (files.map wfEntry)
      = Except.ok (files.all (fun fe => diskSize d fe.1 == some fe.2)) := by
  induction files with
  | nil => rfl
  | cons fe rest ih =>
    show (do
        let nameJ ← pyGetItem (wfEntry fe) "name"
        let nm ← pyAsPathName nameJ
        match diskSize d nm with
        | none => pure false
        | some sz => do
          let sizeJ ← pyGetItem (wfEntry fe) "size"
          if jsonEqNat sizeJ sz then checkFilesLoop d (rest.map wfEntry) else pure false) = _
    have h1 : pyGetItem (wfEntry fe) "name" = Except.ok (.str fe.1) := rfl
    have h2 : pyGetItem (wfEntry fe) "size" = Except.ok (.num (fe.2 : Int)) := rfl
    rw [h1, exceptBindOk]
    show (match diskSize d fe.1 with
        | none => pure false
        | some sz => do
          let sizeJ ← pyGetItem (wfEntry fe) "size"
          if jsonEqNat sizeJ sz then checkFilesLoop d (rest.map wfEntry) else pure false) = _
    cases hdisk : diskSize d fe.1 with
    | none => simp [hdisk, exceptPure]
    | some sz =>
      show (do
          let sizeJ ← pyGetItem (wfEntry fe) "size"
          if jsonEqNat sizeJ sz then checkFilesLoop d (rest.map wfEntry)
          else pure false) = _
      rw [h2, exceptBindOk]
      by_cases hsz : sz = fe.2
      · subst hsz
        have hb : jsonEqNat (.num (fe.2 : Int)) fe.2 = true := by simp [jsonEqNat]
        rw [hb]
        simp [ih, hdisk]
      · have hb : jsonEqNat (.num (fe.2 : Int)) sz = false := by
          simp only [jsonEqNat, decide_eq_false_iff_not]
          omega
        rw [hb]
        have hbe : (some sz == some fe.2) = false := by
          rw [beq_eq_false_iff_ne]
          exact fun h => hsz (Option.some_inj.mp h)
        simp [hdisk, hbe, exceptPure]

/-- Full computation of `_validate_processing_cache` on a directory
whose manifest decodes to a well-formed files list: the manifest is
truthy iff nonempty, the extension scan applies only to asset types
present in the validator's extension table, and the per-file loop
checks disk presence and sizes. No exception escapes on this shape. -/
lemma validate_wf (nm : String) (disk : List (String × Nat))
    (files : List (String × Nat)) :
    validate_processing_cache ⟨nm, .content (mkManifestJson files), disk⟩
      = Except.ok (if files.isEmpty then false
        else match expectedExtVal nm with
        | some ext =>
          if files.any (fun fe => pyEndsWithStr fe.1 ext)
          then files.all (fun fe => diskSize ⟨nm, .content (mkManifestJson files), disk⟩ fe.1 == some fe.2)
          else false
        | none => files.all (fun fe => diskSize ⟨nm, .content (mkManifestJson files), disk⟩ fe.1 == some fe.2)) := by
  cases files with
  | nil => rfl
  | cons fe rest =>
    have hbody : validateBody ⟨nm, .content (mkManifestJson (fe :: rest)), disk⟩
        = (match expectedExtVal nm with
          | some ext => do
            let entries ← pyIterate (.arr ((fe :: rest).map wfEntry))
            let anyOk ← exceptAny (fun f => do
              let nm2 ← pyGetItem f "name"
              pyEndsWith nm2 ext) entries
            if !anyOk then pure false
            else do
              let entries2 ← pyIterate (.arr ((fe :: rest).map wfEntry))
              checkFilesLoop ⟨nm, .content (mkManifestJson (fe :: rest)), disk⟩ entries2
          | none => do
            let entries2 ← pyIterate (.arr ((fe :: rest).map wfEntry))
            checkFilesLoop ⟨nm, .content (mkManifestJson (fe :: rest)), disk⟩ entries2) := rfl
    have hvb : validateBody ⟨nm, .content (mkManifestJson (fe :: rest)), disk⟩
        = Except.ok (match expectedExtVal nm with
          | some ext =>
            if (fe :: rest).any (fun g => pyEndsWithStr g.1 ext)
            then (fe :: rest).all (fun g =>
              diskSize ⟨nm, .content (mkManifestJson (fe :: rest)), disk⟩ g.1 == some g.2)
            else false
          | none => (fe :: rest).all (fun g =>
            diskSize ⟨nm, .content (mkManifestJson (fe :: rest)), disk⟩ g.1 == some g.2)) := by
      rw [hbody]
      cases hext : expectedExtVal nm with
      | none =>
        dsimp only
        rw [show pyIterate (.arr ((fe :: rest).map wfEntry))
            = Except.ok ((fe :: rest).map wfEntry) from rfl, exceptBindOk,
          checkFilesLoop_wf]
      | some ext =>
        dsimp only
        rw [show pyIterate (.arr ((fe :: rest).map wfEntry))
            = Except.ok ((fe :: rest).map wfEntry) from rfl, exceptBindOk,
          exceptAny_wf, exceptBindOk]
        cases hany : (fe :: rest).any (fun g => pyEndsWithStr g.1 ext) with
        | false => simp [exceptPure]
        | true =>
          simp only [Bool.not_true, Bool.false_eq_true, if_false]
          rw [exceptBindOk, checkFilesLoop_wf]
          simp
    simp only [validate_processing_cache]
    rw [hvb]
    rfl

/-! ## C1 -/

/-- C1 counterexample. A directory named `chords` with a well-formed
manifest listing only `solo.json`, present on disk with the right
size, validates successfully even though no listed file carries the
`.srt` or `.txt` extension: the validator's extension table has no
entry for `chords`, so the claimed extension requirement is not
enforced for that asset type. -/
theorem c1_counterexample :
    validate_processing_cache
        ⟨"chords", .content (mkManifestJson [("solo.json", 3)]), [("solo.json", 3)]⟩
      = Except.ok true
    ∧ pyEndsWithStr "solo.json" ".srt" = false
    ∧ pyEndsWithStr "solo.json" ".txt" = false := by
  refine ⟨rfl, rfl, rfl⟩

/-- C1 as amended. `validate_manifest` returns false when the decoded
manifest object has no `files` key, when the files list is empty, when
a listed file is missing on disk or has a different size, and — for
the asset types in the validator's extension table, namely stems
(`.wav`), midi (`.mid`) and abc_files (`.abc`), but not chords — when
no listed file carries the expected extension. -/
theorem c1_manifest_validation_soundness :
    (∀ (nm : String) (disk : List (String × Nat)) (kvs : List (String × Json)),
      (∀ kv ∈ kvs, kv.1 ≠ "files") →
      validate_processing_cache ⟨nm, .content (.obj kvs), disk⟩ = Except.ok false)
    ∧ (∀ (nm : String) (disk : List (String × Nat)),
        validate_processing_cache ⟨nm, .content (mkManifestJson []), disk⟩
          = Except.ok false)
    ∧ (∀ (nm : String) (disk files : List (String × Nat)),
        (∃ fe ∈ files,
          diskSize ⟨nm, .content (mkManifestJson files), disk⟩ fe.1 ≠ some fe.2) →
        validate_processing_cache ⟨nm, .content (mkManifestJson files), disk⟩
          = Except.ok false)
    ∧ (∀ (nm ext : String) (disk files : List (String × Nat)),
        expectedExtVal nm = some ext →
        (∀ fe ∈ files, pyEndsWithStr fe.1 ext = false) →
        validate_processing_cache ⟨nm, .content (mkManifestJson files), disk⟩
          = Except.ok false) := by
  refine ⟨?_, ?_, ?_, ?_⟩
  · intro nm disk kvs hnokey
    have hany : (kvs.any (fun kv => kv.1 == "files")) = false :=
      List.any_eq_false.mpr (fun kv hkv => by simpa using hnokey kv hkv)
    have hbody : validateBody ⟨nm, .content (.obj kvs), disk⟩ = Except.ok false := by
      simp only [validateBody]
      rw [exceptBindOk, show pyContains (Json.obj kvs) "files"
          = Except.ok (kvs.any (fun kv => kv.1 == "files")) from rfl, hany, exceptBindOk]
      simp [exceptPure]
    simp only [validate_processing_cache]
    rw [hbody]
  · intro nm disk
    exact validate_wf nm disk []
  · intro nm disk files hbad
    rw [validate_wf]
    obtain ⟨fe, hfe, hne⟩ := hbad
    have hall : (files.all (fun g =>
        diskSize ⟨nm, .content (mkManifestJson files), disk⟩ g.1 == some g.2)) = false :=
      List.all_eq_false.mpr ⟨fe, hfe, by simpa using hne⟩
    cases files with
    | nil => cases hfe
    | cons f0 rest =>
      cases hext : expectedExtVal nm with
      | none => simp [hext, hall]
      | some ext =>
        cases hany : (f0 :: rest).any (fun g => pyEndsWithStr g.1 ext) with
        | false => simp [hext, hany]
        | true => simp [hext, hany, hall]
  · intro nm ext disk files hext hnoext
    rw [validate_wf]
    have hany : (files.any (fun g => pyEndsWithStr g.1 ext)) = false :=
      List.any_eq_false.mpr (fun fe hfe => by simp [hnoext fe hfe])
    cases hie : files.isEmpty with
    | true => simp [hie]
    | false => simp [hie, hext, hany]

/-- Witness for C1 as amended, at concrete directories: a stems
manifest whose only file lacks the `.wav` extension fails validation,
and a stems manifest listing a file that is absent on disk fails
validation. -/
theorem c1_witness :
    validate_processing_cache
        ⟨"stems", .content (mkManifestJson [("a.txt", 3)]), [("a.txt", 3)]⟩
      = Except.ok false
    ∧ validate_processing_cache
        ⟨"stems", .content (mkManifestJson [("a.wav", 3)]), []⟩
      = Except.ok false := by
  constructor
  · exact c1_manifest_validation_soundness.2.2.2 "stems" ".wav" [("a.txt", 3)]
      [("a.txt", 3)] rfl (by intro fe hfe; fin_cases hfe; rfl)
  · exact c1_manifest_validation_soundness.2.2.1 "stems" [] [("a.wav", 3)]
      ⟨("a.wav", 3), by simp, by simp [diskSize]⟩

/-! ## C9 -/

/-- C9. The claim says validation fails closed on every parse error
and never propagates an exception; the code catches only
`JSONDecodeError`, `IOError` and `KeyError`, so a manifest whose JSON
decodes to a non-object (here the literal 42) raises `TypeError` from
the `in` operator, and a well-formed object whose files entry is a
bare number raises `TypeError` from the entry subscript; both escape
`_validate_processing_cache`. -/
theorem c9_validate_throws :
    validate_processing_cache ⟨"chords", .content (.num 42), []⟩
      = Except.error PyErr.typeError
    ∧ validate_processing_cache ⟨"stems", .content (.obj [("files", .arr [.num 5])]), []⟩
      = Except.error PyErr.typeError := ⟨rfl, rfl⟩

/-! ## C6 -/

/-- C6 counterexample. A single candidate whose asset subdirectory
exists but whose manifest decodes to an object with a bare-number
files entry does not pass validation — validation raises `TypeError`
— and `resolve` propagates that exception instead of returning
CREATE_NEW. -/
theorem c6_counterexample :
    resolve "results" "midi"
        [⟨"cand1", some ⟨"midi", .content (.obj [("files", .arr [.num 7])]), []⟩, true⟩]
      = Except.error PyErr.typeError
    ∧ validate_processing_cache ⟨"midi", .content (.obj [("files", .arr [.num 7])]), []⟩
      = Except.error PyErr.typeError := ⟨rfl, rfl⟩

/-- C6 as amended. When every candidate's validation completes with a
boolean (rather than raising), `resolve` never raises: if no candidate
both validates and copies successfully, it returns CREATE_NEW with the
destination path `{task_result_dir}/{asset_type}` (created empty), and
a candidate that validates but fails to copy is skipped in favour of
the remaining candidates. -/
theorem c6_cache_degradation (resultDir assetType : String) (cands : List Candidate)
    (hcomplete : ∀ c ∈ cands, ∀ dir, c.assetDir = some dir →
      ∃ b, validate_processing_cache dir = Except.ok b) :
    (∃ r, resolve resultDir assetType cands = Except.ok r)
    ∧ ((∀ c ∈ cands, ∀ dir, c.assetDir = some dir →
          validate_processing_cache dir = Except.ok true → c.copyOk = false) →
        resolve resultDir assetType cands
          = Except.ok (ResolveAction.CREATE_NEW, resultDir ++ "/" ++ assetType))
    ∧ (∀ c rest, cands = c :: rest → ∀ dir, c.assetDir = some dir →
        validate_processing_cache dir = Except.ok true → c.copyOk = false →
        resolve resultDir assetType cands = resolve resultDir assetType rest) := by
  have hloop : ∀ (l : List Candidate),
      (∀ c ∈ l, ∀ dir, c.assetDir = some dir →
        ∃ b, validate_processing_cache dir = Except.ok b) →
      (∀ c ∈ l, ∀ dir, c.assetDir = some dir →
        validate_processing_cache dir = Except.ok true → c.copyOk = false) →
      resolveLoop l = Except.ok ResolveAction.CREATE_NEW := by
    intro l
    induction l with
    | nil => intro _ _; rfl
    | cons c rest ih =>
      intro hc hq
      have hrest := ih (fun c2 h2 => hc c2 (List.mem_cons_of_mem _ h2))
        (fun c2 h2 => hq c2 (List.mem_cons_of_mem _ h2))
      unfold resolveLoop
      cases hdir : c.assetDir with
      | none => exact hrest
      | some dir =>
        dsimp only
        obtain ⟨b, hb⟩ := hc c (List.mem_cons_self _ _) dir hdir
        rw [hb]
        cases b with
        | false => exact hrest
        | true =>
          dsimp only
          rw [hq c (List.mem_cons_self _ _) dir hdir hb]
          simpa using hrest
  have hnoerr : ∀ (l : List Candidate),
      (∀ c ∈ l, ∀ dir, c.assetDir = some dir →
        ∃ b, validate_processing_cache dir = Except.ok b) →
      ∃ a, resolveLoop l = Except.ok a := by
    intro l
    induction l with
    | nil => exact fun _ => ⟨ResolveAction.CREATE_NEW, rfl⟩
    | cons c rest ih =>
      intro hc
      obtain ⟨a, ha⟩ := ih (fun c2 h2 => hc c2 (List.mem_cons_of_mem _ h2))
      unfold resolveLoop
      cases hdir : c.assetDir with
      | none => exact ⟨a, ha⟩
      | some dir =>
        dsimp only
        obtain ⟨b, hb⟩ := hc c (List.mem_cons_self _ _) dir hdir
        rw [hb]
        cases b with
        | false => exact ⟨a, ha⟩
        | true =>
          dsimp only
          cases hcopy : c.copyOk with
          | true => exact ⟨ResolveAction.USE_EXISTING c.folderName, by simp⟩
          | false => exact ⟨a, by simp [hcopy, ha]⟩
  refine ⟨?_, ?_, ?_⟩
  · obtain ⟨a, ha⟩ := hnoerr cands hcomplete
    exact ⟨(a, resultDir ++ "/" ++ assetType), by unfold resolve; rw [ha]⟩
  · intro hq
    unfold resolve
    rw [hloop cands hcomplete hq]
  · intro c rest hcands dir hdir hval hcopy
    subst hcands
    have hstep : resolveLoop (c :: rest) = resolveLoop rest := by
      show (match c.assetDir with
        | none => resolveLoop rest
        | some dir =>
          match validate_processing_cache dir with
          | .error e => .error e
          | .ok false => resolveLoop rest
          | .ok true =>
            if c.copyOk then .ok (.USE_EXISTING c.folderName)
            else resolveLoop rest) = resolveLoop rest
      rw [hdir]
      dsimp only
      rw [hval]
      dsimp only
      rw [hcopy]
      simp
    unfold resolve
    rw [hstep]

/-- Witness for C6 as amended: one candidate with an invalid manifest
and one that validates but fails to copy still end in CREATE_NEW. -/
theorem c6_witness :
    resolve "res" "stems"
        [⟨"c1", some ⟨"stems", .content (mkManifestJson [("a.txt", 3)]), [("a.txt", 3)]⟩, true⟩,
         ⟨"c2", some ⟨"stems", .content (mkManifestJson [("a.wav", 3)]), [("a.wav", 3)]⟩, false⟩]
      = Except.ok (ResolveAction.CREATE_NEW, "res" ++ "/" ++ "stems") := by
  refine (c6_cache_degradation "res" "stems" _ ?_).2.1 ?_
  · intro c hc dir hdir
    fin_cases hc
    · exact ⟨false, by cases hdir; rfl⟩
    · exact ⟨true, by cases hdir; rfl⟩
  · intro c hc dir hdir hval
    fin_cases hc
    · cases hdir
      rw [show validate_processing_cache
          ⟨"stems", .content (mkManifestJson [("a.txt", 3)]), [("a.txt", 3)]⟩
          = Except.ok false from rfl] at hval
      cases hval
    · cases hdir
      rfl

/-! ## C2 -/

set_option maxRecDepth 1000000
set_option maxHeartbeats 2000000

/-- The settings fingerprint of full analysis with the fast model. -/
lemma sfp_abc_fast : settings_fingerprint "abc" "htdemucs" = "0a89594c" := by rfl

/-- The settings fingerprint of full analysis with the six-stem
model. -/
lemma sfp_abc_six : settings_fingerprint "abc" "htdemucs_6s" = "6c9a6898" := by rfl

/-- The settings fingerprint of full analysis with the fine-tuned
model. -/
lemma sfp_abc_deep : settings_fingerprint "abc" "htdemucs_ft" = "3e502962" := by rfl

/-- The lyrics-only mode key ignores the model variant. -/
lemma mode_key_lyrics (dm : String) : mode_key "lyrics_only" dm = "lyrics_only-na" := rfl

/-- The settings fingerprint of the lyrics-only mode key. -/
lemma sfp_lyrics_na : settings_fingerprint "lyrics_only" "na" = "f1e05a76" := by rfl

/-- The settings fingerprint of lyrics-only mode is independent of the
model variant: the mode key replaces the variant by `na`. -/
lemma sfp_lyrics (dm : String) : settings_fingerprint "lyrics_only" dm = "f1e05a76" := by
  have h := sfp_lyrics_na
  unfold settings_fingerprint at h ⊢
  rw [mode_key_lyrics dm]
  rw [mode_key_lyrics "na"] at h
  exact h

/-- The SHA-256 embedding matches the first standard test vector. -/
lemma sha256hex_abc_vector :
    sha256hex (strBytes "abc")
      = "ba7816bf8f01cfea414140de5dae2223b00361a396177a9cb410ff61f20015ad" := by rfl

/-- Chunking a list and flattening it back is the identity when the
fuel covers its length. -/
lemma chunksF_flatten (size : Nat) (hsize : 0 < size) :
    ∀ (fuel : Nat) (l : List Nat), l.length ≤ fuel → (chunksF size fuel l).flatten = l := by
  intro fuel
  induction fuel with
  | zero =>
    intro l hl
    have : l = [] := List.eq_nil_of_length_eq_zero (Nat.le_zero.mp hl)
    subst this
    rfl
  | succ f ih =>
    intro l hl
    cases l with
    | nil => rfl
    | cons x xs =>
      show (List.take size (x :: xs) :: chunksF size f (List.drop size (x :: xs))).flatten
        = x :: xs
      rw [List.flatten_cons, ih (List.drop size (x :: xs)) (by
        rw [List.length_drop]
        have : (x :: xs).length ≤ f + 1 := hl
        have h1 : 1 ≤ (x :: xs).length := by simp
        omega)]
      exact List.take_append_drop size (x :: xs)

/-- Folding list append over chunks prepends the accumulator to the
flattened chunks. -/
lemma foldl_append_flatten (ls : List (List Nat)) :
    ∀ acc : List Nat, ls.foldl (fun a c => a ++ c) acc = acc ++ ls.flatten := by
  induction ls with
  | nil => intro acc; simp
  | cons c rest ih =>
    intro acc
    rw [List.foldl_cons, ih (acc ++ c), List.flatten_cons, List.append_assoc]

/-- Appending on the left of a string is injective on the right
operand. -/
lemma string_append_cancel (s t u : String) : s ++ t = s ++ u ↔ t = u := by
  constructor
  · intro h
    have hd : (s ++ t).data = (s ++ u).data := congrArg String.data h
    rw [String.data_append, String.data_append] at hd
    exact String.ext (List.append_cancel_left hd)
  · intro h; rw [h]

/-- C2 counterexample. Two jobs in lyrics-only mode with the same
primary input but different model variants are different settings,
yet their fingerprints coincide: the mode key replaces the variant
with `na` outside full-analysis mode. -/
theorem c2_counterexample :
    (("lyrics_only", "htdemucs") ≠ (("lyrics_only", "htdemucs_ft") : String × String))
    ∧ fingerprint (some "deadbeef") "lyrics_only" "htdemucs"
      = fingerprint (some "deadbeef") "lyrics_only" "htdemucs_ft" :=
  ⟨by decide, rfl⟩

/-- C2 as amended. Determinism: the streamed file hash is a function
of the file bytes alone (feeding 4096-byte chunks equals hashing the
whole content), so recomputing the fingerprint for the same input and
settings yields the same string. Sensitivity: over the supported
processing modes and model variants, two settings produce different
fingerprints for the same primary input exactly when their modes
differ or both are full-analysis with different variants; in
lyrics-only mode the variant is ignored. -/
theorem c2_fingerprint_determinism_sensitivity :
    (∀ content : List Nat, get_file_hash content = sha256hex content)
    ∧ (∀ (h : Option String) (pm1 dm1 pm2 dm2 : String),
        pm1 ∈ ["abc", "lyrics_only"] → pm2 ∈ ["abc", "lyrics_only"] →
        dm1 ∈ ["htdemucs", "htdemucs_6s", "htdemucs_ft"] →
        dm2 ∈ ["htdemucs", "htdemucs_6s", "htdemucs_ft"] →
        (fingerprint h pm1 dm1 = fingerprint h pm2 dm2 ↔
          (pm1 = pm2 ∧ (pm1 = "abc" → dm1 = dm2)))) := by
  constructor
  · intro content
    unfold get_file_hash
    rw [foldl_append_flatten, List.nil_append,
      chunksF_flatten 4096 (by norm_num) content.length content (le_refl _)]
  · intro h pm1 dm1 pm2 dm2 h1 h2 h3 h4
    have hsplit : fingerprint h pm1 dm1 = fingerprint h pm2 dm2 ↔
        settings_fingerprint pm1 dm1 = settings_fingerprint pm2 dm2 := by
      unfold fingerprint
      exact string_append_cancel (file_fingerprint h ++ "_") _ _
    rw [hsplit]
    fin_cases h1 <;> fin_cases h2 <;> fin_cases h3 <;> fin_cases h4 <;>
      simp only [sfp_abc_fast, sfp_abc_six, sfp_abc_deep, sfp_lyrics] <;> decide

/-- Witness for C2 as amended: changing the mode changes the
fingerprint; and the streamed hash agrees with the whole-content hash
on a concrete byte list. -/
theorem c2_witness :
    fingerprint (some "cafe") "abc" "htdemucs"
      ≠ fingerprint (some "cafe") "lyrics_only" "htdemucs"
    ∧ get_file_hash [97, 98, 99] = sha256hex [97, 98, 99] := by
  constructor
  · intro heq
    have H := (c2_fingerprint_determinism_sensitivity.2 (some "cafe")
      "abc" "htdemucs" "lyrics_only" "htdemucs"
      (by decide) (by decide) (by decide) (by decide)).mp heq
    exact absurd H.1 (by decide)
  · exact c2_fingerprint_determinism_sensitivity.1 [97, 98, 99]

/-! ## C4 -/

/-- With duplicate-free keys, membership of a pair coincides with a
successful lookup of its key. -/
lemma mem_iff_lookup {p : MPath} {h : String} {files : List (MPath × String)}
    (hnd : (files.map Prod.fst).Nodup) :
    (p, h) ∈ files ↔ List.lookup p files = some h := by
  induction files with
  | nil => simp
  | cons qg rest ih =>
    obtain ⟨q, g⟩ := qg
    have hq : q ∉ rest.map Prod.fst := (List.nodup_cons.mp hnd).1
    have hndr : (rest.map Prod.fst).Nodup := (List.nodup_cons.mp hnd).2
    by_cases hpq : p = q
    · subst hpq
      have hmemr : (p, h) ∉ rest := fun hm =>
        hq (List.mem_map.mpr ⟨(p, h), hm, rfl⟩)
      have hlk : List.lookup p ((p, g) :: rest) = some g := by simp [List.lookup]
      rw [hlk]
      constructor
      · intro hin
        rcases List.mem_cons.mp hin with heq | hin2
        · injection heq with _ hg
          rw [hg]
        · exact absurd hin2 hmemr
      · intro hl
        have hg : g = h := Option.some_inj.mp hl
        subst hg
        exact List.mem_cons_self _ _
    · have hbeq : (p == q) = false := beq_eq_false_iff_ne.mpr hpq
      have hlk : List.lookup p ((q, g) :: rest) = List.lookup p rest := by
        simp [List.lookup, hbeq]
      rw [hlk, ← ih hndr]
      constructor
      · intro hin
        rcases List.mem_cons.mp hin with heq | hin2
        · exact absurd (congrArg Prod.fst heq) hpq
        · exact hin2
      · exact fun hin => List.mem_cons_of_mem _ hin

/-- Filtering preserves duplicate-freedom of the keys. -/
lemma nodup_filter_keys (files : List (MPath × String)) (pred : MPath × String → Bool)
    (hnd : (files.map Prod.fst).Nodup) :
    ((files.filter pred).map Prod.fst).Nodup :=
  List.Nodup.sublist (List.Sublist.map Prod.fst (List.filter_sublist files)) hnd

/-- The corruption step is the identity when the referenced path is
absent. -/
lemma corruptStep_absent (files : List (MPath × String)) (e : MEntry)
    (hl : liveHash files e.path = none) : corruptStep files e = files := by
  unfold corruptStep
  rw [hl]

/-- The corruption step is the identity when the recorded hash matches
the live hash. -/
lemma corruptStep_keep (files : List (MPath × String)) (e : MEntry) (h0 : String)
    (hl : liveHash files e.path = some h0) (hbe : (e.hash == some h0) = true) :
    corruptStep files e = files := by
  unfold corruptStep
  rw [hl]
  dsimp only
  rw [hbe]
  simp

/-- The corruption step deletes the referenced path when the recorded
hash differs from the live hash. -/
lemma corruptStep_del (files : List (MPath × String)) (e : MEntry) (h0 : String)
    (hl : liveHash files e.path = some h0) (hbe : (e.hash == some h0) = false) :
    corruptStep files e = files.filter (fun f => f.1 != e.path) := by
  unfold corruptStep
  rw [hl]
  dsimp only
  rw [hbe]
  simp

/-- One corruption-pass step keeps a pair exactly when the entry does
not legitimately delete it: it deletes the entry's path when it exists
with a live hash different from the recorded one. -/
lemma corruptStep_mem (files : List (MPath × String)) (e : MEntry) (p : MPath) (h : String)
    (hnd : (files.map Prod.fst).Nodup) :
    ((p, h) ∈ corruptStep files e) ↔
      ((p, h) ∈ files ∧ (e.path = p → e.hash = some h)) := by
  cases hlook : liveHash files e.path with
  | none =>
    rw [corruptStep_absent files e hlook]
    unfold liveHash at hlook
    constructor
    · intro hin
      refine ⟨hin, fun hep => ?_⟩
      subst hep
      rw [(mem_iff_lookup hnd).mp hin] at hlook
      cases hlook
    · exact fun hin => hin.1
  | some h0 =>
    unfold liveHash at hlook
    cases hbe : e.hash == some h0 with
    | true =>
      rw [corruptStep_keep files e h0 hlook hbe]
      have hhash : e.hash = some h0 := eq_of_beq hbe
      constructor
      · intro hin
        refine ⟨hin, fun hep => ?_⟩
        subst hep
        have hs : some h = some h0 := by
          rw [← (mem_iff_lookup hnd).mp hin, hlook]
        rw [hhash, ← Option.some_inj.mp hs]
      · exact fun hin => hin.1
    | false =>
      rw [corruptStep_del files e h0 hlook hbe]
      have hhash : e.hash ≠ some h0 := by
        intro hh
        rw [hh] at hbe
        simp at hbe
      constructor
      · intro hin
        have hin2 := List.mem_filter.mp hin
        have hne : p ≠ e.path := by simpa using hin2.2
        exact ⟨hin2.1, fun hep => absurd hep.symm hne⟩
      · rintro ⟨hin, himp⟩
        refine List.mem_filter.mpr ⟨hin, ?_⟩
        simp only [bne_iff_ne, ne_eq, decide_not]
        intro hep
        subst hep
        have hs : some h = some h0 := by
          rw [← (mem_iff_lookup hnd).mp hin, hlook]
        exact hhash ((himp rfl).trans hs)

/-- One corruption-pass step preserves duplicate-free keys. -/
lemma corruptStep_nodup (files : List (MPath × String)) (e : MEntry)
    (hnd : (files.map Prod.fst).Nodup) :
    ((corruptStep files e).map Prod.fst).Nodup := by
  cases hlook : liveHash files e.path with
  | none =>
    rw [corruptStep_absent files e hlook]
    exact hnd
  | some h0 =>
    cases hbe : e.hash == some h0 with
    | true =>
      rw [corruptStep_keep files e h0 hlook hbe]
      exact hnd
    | false =>
      rw [corruptStep_del files e h0 hlook hbe]
      exact nodup_filter_keys files _ hnd

/-- Folding the corruption step over a list of entries keeps exactly
the pairs all of whose matching entries record the live hash. -/
lemma corruptFold_mem (entries : List MEntry) :
    ∀ (files : List (MPath × String)), (files.map Prod.fst).Nodup →
      ∀ (p : MPath) (h : String),
      ((p, h) ∈ entries.foldl corruptStep files) ↔
        ((p, h) ∈ files ∧ ∀ e ∈ entries, e.path = p → e.hash = some h) := by
  induction entries with
  | nil => intro files _ p h; simp
  | cons e rest ih =>
    intro files hnd p h
    rw [List.foldl_cons,
      ih (corruptStep files e) (corruptStep_nodup files e hnd) p h,
      corruptStep_mem files e p h hnd]
    constructor
    · rintro ⟨⟨hin, he⟩, hrest⟩
      refine ⟨hin, fun e2 he2 => ?_⟩
      rcases List.mem_cons.mp he2 with rfl | hmem
      · exact he
      · exact hrest e2 hmem
    · rintro ⟨hin, hall⟩
      exact ⟨⟨hin, hall e (List.mem_cons_self _ _)⟩,
        fun e2 he2 => hall e2 (List.mem_cons_of_mem _ he2)⟩

/-- A lookup succeeds exactly when some pair carries the key. -/
lemma lookup_isSome_iff (p : MPath) (files : List (MPath × String)) :
    ((List.lookup p files).isSome = true) ↔ ∃ hh, (p, hh) ∈ files := by
  induction files with
  | nil => simp [List.lookup]
  | cons qg rest ih =>
    obtain ⟨q, g⟩ := qg
    by_cases hpq : p = q
    · subst hpq
      have hlk : List.lookup p ((p, g) :: rest) = some g := by simp [List.lookup]
      rw [hlk]
      simp
    · have hbeq : (p == q) = false := beq_eq_false_iff_ne.mpr hpq
      have hlk : List.lookup p ((q, g) :: rest) = List.lookup p rest := by
        simp [List.lookup, hbeq]
      rw [hlk, ih]
      constructor
      · rintro ⟨hh, hmem⟩
        exact ⟨hh, List.mem_cons_of_mem _ hmem⟩
      · rintro ⟨hh, hmem⟩
        rcases List.mem_cons.mp hmem with heq | hmem2
        · exact absurd (congrArg Prod.fst heq) hpq
        · exact ⟨hh, hmem2⟩

/-- C4. The global cleanup runs its three passes in order. The orphan
pass touches no manifest and keeps exactly the files that the walk
cannot reach or that some parseable manifest knows (every
manifest-referenced file is known, so it is untouched). The corruption
pass keeps exactly the files all of whose manifest references record
the live hash, deleting every referenced file with a hash mismatch.
The manifest pass touches no file and keeps exactly the unparseable
manifests and those whose referenced paths all still exist. -/
theorem c4_cleanup_sweep (s : ModelsState) (hnd : (s.files.map Prod.fst).Nodup) :
    cleanup s = manifestPass (corruptionPass (orphanPass s))
    ∧ ((orphanPass s).manifests = s.manifests
      ∧ ∀ (p : MPath) (h : String), ((p, h) ∈ (orphanPass s).files ↔
          ((p, h) ∈ s.files ∧ (walkExcluded p = true ∨ p ∈ knownFiles s.manifests))))
    ∧ (∀ (p : MPath) (h : String), ((p, h) ∈ (corruptionPass s).files ↔
        ((p, h) ∈ s.files ∧ ∀ e ∈ checkedEntries s.manifests, e.path = p → e.hash = some h)))
    ∧ ((manifestPass s).files = s.files
      ∧ ∀ m : MManifest, (m ∈ (manifestPass s).manifests ↔
          (m ∈ s.manifests ∧ ∀ es, m.entries = some es →
            ∀ e ∈ es, ∃ hh, (e.path, hh) ∈ s.files))) := by
  refine ⟨rfl, ⟨rfl, ?_⟩, ?_, ⟨rfl, ?_⟩⟩
  · intro p h
    unfold orphanPass
    rw [List.mem_filter]
    simp only [Bool.or_eq_true]
    constructor
    · rintro ⟨hin, hor⟩
      refine ⟨hin, ?_⟩
      rcases hor with hw | hk
      · exact Or.inl hw
      · exact Or.inr (by simpa using hk)
    · rintro ⟨hin, hor⟩
      refine ⟨hin, ?_⟩
      rcases hor with hw | hk
      · exact Or.inl hw
      · exact Or.inr (by simpa using hk)
  · intro p h
    exact corruptFold_mem (checkedEntries s.manifests) s.files hnd p h
  · intro m
    unfold manifestPass
    rw [List.mem_filter]
    constructor
    · rintro ⟨hin, hpred⟩
      refine ⟨hin, fun es hes => ?_⟩
      rw [hes] at hpred
      intro e he
      have := List.all_eq_true.mp hpred e he
      exact (lookup_isSome_iff e.path s.files).mp (by simpa [liveHash] using this)
    · rintro ⟨hin, hall⟩
      refine ⟨hin, ?_⟩
      cases hes : m.entries with
      | none => rfl
      | some es =>
        apply List.all_eq_true.mpr
        intro e he
        have := (lookup_isSome_iff e.path s.files).mpr (hall es hes e he)
        simpa [liveHash] using this

/-- Witness for C4 on a concrete state: one file known to a manifest
with a matching hash and one orphan; the orphan pass removes exactly
the orphan, and the corruption pass keeps the healthy file. -/
theorem c4_witness :
    ((["junk.bin"], "h2") ∉
      (orphanPass ⟨[(["m", "a.bin"], "h1"), (["junk.bin"], "h2")],
        [⟨"m.json", some [⟨["m", "a.bin"], some "h1"⟩]⟩]⟩).files)
    ∧ ((["m", "a.bin"], "h1") ∈
      (orphanPass ⟨[(["m", "a.bin"], "h1"), (["junk.bin"], "h2")],
        [⟨"m.json", some [⟨["m", "a.bin"], some "h1"⟩]⟩]⟩).files)
    ∧ ((["m", "a.bin"], "h1") ∈
      (corruptionPass ⟨[(["m", "a.bin"], "h1"), (["junk.bin"], "h2")],
        [⟨"m.json", some [⟨["m", "a.bin"], some "h1"⟩]⟩]⟩).files) := by
  have H := c4_cleanup_sweep
    ⟨[(["m", "a.bin"], "h1"), (["junk.bin"], "h2")],
      [⟨"m.json", some [⟨["m", "a.bin"], some "h1"⟩]⟩]⟩ (by decide)
  refine ⟨?_, ?_, ?_⟩
  · intro hmem
    have := (H.2.1.2 ["junk.bin"] "h2").mp hmem
    rcases this.2 with hw | hk
    · exact absurd hw (by decide)
    · exact absurd hk (by decide)
  · exact (H.2.1.2 ["m", "a.bin"] "h1").mpr ⟨by decide, Or.inr (by decide)⟩
  · refine (H.2.2.1 ["m", "a.bin"] "h1").mpr ⟨by decide, ?_⟩
    intro e he hep
    fin_cases he
    rfl

end SolaSola
